import Mathlib

/-!
Shallow embedding of the dice-roll evaluation engine of the `hypnos`
repository, shimmer variant (`src/sparkle.rs`).  Rust `u64` values are
modelled as `Nat` (the engine only adds and compares them; no overflow is
reachable since parsed values are range-checked), `i128` sort keys as `Int`,
and the random number generator as an oracle `rng : Nat → Nat` together with
the index of the next draw.  Rust's stable in-place `sort_by_key` is modelled
by `List.insertionSort` with the non-strict key order (a stable sort is
extensionally determined by the key order and stability).
-/

/-- `Die` from `sparkle.rs`: the five parseable dice. -/
inductive Die : Type where
  | D4 : Die
  | D6 : Die
  | D8 : Die
  | D10 : Die
  | D12 : Die
deriving DecidableEq, Repr

/-- `Die::sides` from `sparkle.rs`.  Note the source maps `D12` to 10. -/
def Die.sides : Die → Nat
  | Die.D4 => 4
  | Die.D6 => 6
  | Die.D8 => 8
  | Die.D10 => 10
  | Die.D12 => 10

/-- `Die::bump_up` from `sparkle.rs` (saturating at `D12`). -/
def Die.bump_up : Die → Die
  | Die.D4 => Die.D6
  | Die.D6 => Die.D8
  | Die.D8 => Die.D10
  | Die.D10 => Die.D12
  | Die.D12 => Die.D12

/-- Position of the constructor in the declaration order; the derived Rust
`Ord` instance on `Die` compares by this rank. -/
def Die.rank : Die → Nat
  | Die.D4 => 0
  | Die.D6 => 1
  | Die.D8 => 2
  | Die.D10 => 3
  | Die.D12 => 4

/-- How many dice lie strictly above this one in the `bump_up` chain; a
structural bound on the shimmer cascade depth. -/
def Die.gap : Die → Nat
  | Die.D4 => 4
  | Die.D6 => 3
  | Die.D8 => 2
  | Die.D10 => 1
  | Die.D12 => 0

/-- `TryFrom<i32> for Die` from `sparkle.rs`. -/
def Die.tryFrom (value : Int) : Option Die :=
  if value = 4 then some Die.D4
  else if value = 6 then some Die.D6
  else if value = 8 then some Die.D8
  else if value = 10 then some Die.D10
  else if value = 12 then some Die.D12
  else none

/-- `Display for Die` from `sparkle.rs`: writes `d` followed by `sides()`. -/
def Die.display (d : Die) : String := "d" ++ toString d.sides

/-- `Roll` from `sparkle.rs`. -/
inductive Roll : Type where
  | Value : Nat → Die → Roll
  | Shimmer : (initial : Die) → (ultimate : Die) → (shimmer_count : Nat) →
      (value : Nat) → Roll
  | Glitch : Die → Roll
deriving DecidableEq, Repr

/-- `Roll::is_shimmer` from `sparkle.rs`. -/
def Roll.is_shimmer : Roll → Bool
  | Roll.Shimmer _ _ _ _ => true
  | _ => false

/-- `Roll::is_glitch` from `sparkle.rs`. -/
def Roll.is_glitch : Roll → Bool
  | Roll.Glitch _ => true
  | _ => false

/-- The value a roll reports to the user: a glitch displays as `**1**`, the
other outcomes display their `value` field. -/
def Roll.reported : Roll → Nat
  | Roll.Glitch _ => 1
  | Roll.Value v _ => v
  | Roll.Shimmer _ _ _ v => v

/-- `Die::roll` from `sparkle.rs`, with the random draws made explicit: the
draw for the roll at cascade depth `k` is `rng (i + k)` (the source draws
`gen_range(1..=sides)` freshly for each roll).  The extra `gap` argument is a
structural recursion fuel; `Die.roll` below enters with `gap = d.gap`, which
is an invariant of the recursion, so the fuel-exhausted branch (`gap = 0`
with a die other than `D12`) is unreachable from `Die.roll`. -/
def rollGo (rng : Nat → Nat) : Nat → Nat → Die → Roll
  | gap, i, d =>
    let num := rng i
    if num = 1 then Roll.Glitch d
    else if d = Die.D12 then Roll.Value num d
    else if num = d.sides then
      match gap with
      | 0 => Roll.Value num d
      | gap' + 1 =>
        let bigger_die := d.bump_up
        let bigger_roll := rollGo rng gap' (i + 1) bigger_die
        match bigger_roll with
        | Roll.Glitch _ => Roll.Value num d
        | Roll.Value val _ =>
          if val < num then Roll.Value num d
          else Roll.Shimmer d bigger_die 1 (Nat.max num val)
        | Roll.Shimmer _ ultimate shimmer_count value =>
          Roll.Shimmer d ultimate (shimmer_count + 1) (Nat.max num value)
    else Roll.Value num d

/-- `Die::roll` from `sparkle.rs` (entry point, supplying the fuel). -/
def Die.roll (rng : Nat → Nat) (i : Nat) (d : Die) : Roll :=
  rollGo rng d.gap i d

/-- `str::trim` on a character list. -/
def trimChars (cs : List Char) : List Char :=
  ((cs.dropWhile Char.isWhitespace).reverse.dropWhile Char.isWhitespace).reverse

/-- Fold a digit string into the number it denotes. -/
def digitsToNat (l : List Char) : Nat :=
  l.foldl (fun acc c => acc * 10 + (c.toNat - '0'.toNat)) 0

/-- Rust `str::parse::<i32>`: optional sign, one or more digits, range check. -/
def parseI32? (cs : List Char) : Option Int :=
  let sd : Int × List Char :=
    match cs with
    | '+' :: rest => (1, rest)
    | '-' :: rest => (-1, rest)
    | _ => (1, cs)
  if sd.2.isEmpty then none
  else if sd.2.all (·.isDigit) then
    let v : Int := sd.1 * (digitsToNat sd.2 : Int)
    if -2147483648 ≤ v ∧ v ≤ 2147483647 then some v else none
  else none

/-- Rust `str::parse::<u64>`: optional `+`, one or more digits, range check. -/
def parseU64? (cs : List Char) : Option Nat :=
  let digits := match cs with | '+' :: rest => rest | _ => cs
  if digits.isEmpty then none
  else if digits.all (·.isDigit) then
    let v := digitsToNat digits
    if v < 18446744073709551616 then some v else none
  else none

/-- Rust `str::split_whitespace` (never yields empty tokens). -/
def splitWsGo : List Char → List Char → List String
  | [], acc => if acc.isEmpty then [] else [String.mk acc.reverse]
  | c :: cs, acc =>
    if c.isWhitespace then
      if acc.isEmpty then splitWsGo cs []
      else String.mk acc.reverse :: splitWsGo cs []
    else splitWsGo cs (c :: acc)

/-- Rust `str::split_whitespace` on a string. -/
def split_whitespace (s : String) : List String := splitWsGo s.toList []

deriving instance DecidableEq for Except

namespace DiceRollRequest

/-- `DiceRollRequest::get_die_count` from `sparkle.rs`.  The first `d` byte
splits the token; either side is trimmed and parsed exactly as the source
does (an `i32` parse that succeeds but yields a non-die side count makes the
whole function return `None` via `?`, with no fallthrough to the `d` path). -/
def get_die_count (s : String) : Option (Nat × Die) :=
  let cs := s.toList
  match parseI32? (trimChars cs) with
  | some sides => (Die.tryFrom sides).map (fun d => (1, d))
  | none =>
    match cs.findIdx? (· = 'd') with
    | none => none
    | some idx =>
      let count := cs.take idx
      let sides := cs.drop (idx + 1)
      match (if (trimChars count).isEmpty then some 1
             else parseU64? (trimChars count)) with
      | none => none
      | some c =>
        match parseI32? (trimChars sides) with
        | none => none
        | some sv => (Die.tryFrom sv).map (fun d => (c, d))

/-- The token loop of `DiceRollRequest::parse` from `sparkle.rs`: the first
failing token aborts the whole parse with its error. -/
def parseTokens : List String → Except String (List Die)
  | [] => Except.ok []
  | t :: rest =>
    if (trimChars t.toList).isEmpty then parseTokens rest
    else
      match get_die_count t with
      | none =>
        Except.error ("Expected " ++ t ++ " to be like XdY, e.g. 3d6 or 1d8")
      | some (count, die) =>
        if count > 1000000 then
          Except.error "Hey buddy, I'm just a demigod, that's too many dice!"
        else
          (parseTokens rest).map (fun ds => List.replicate count die ++ ds)

/-- `DiceRollRequest::parse` from `sparkle.rs`; the request is modelled as
its `dice` list. -/
def parse (s : String) : Except String (List Die) :=
  parseTokens (split_whitespace s)

end DiceRollRequest

/-- `FinalResult` from `sparkle.rs`. -/
inductive FinalResult : Type where
  | Botch : FinalResult
  | Result : (total : Nat) → (effect : Die) → FinalResult
deriving DecidableEq, Repr

/-- `RollResult::is_botch` from `sparkle.rs`. -/
def is_botch (rolled_die : List Roll) : Bool :=
  rolled_die.all Roll.is_glitch

/-- The `filter_map` at the head of `get_highest_effect`: drop glitches, map
a shimmer to `(value, ultimate)` and a plain value to `(value, die)`. -/
def pairMap : Roll → Option (Nat × Die)
  | Roll.Glitch _ => none
  | Roll.Shimmer _ ultimate _ value => some (value, ultimate)
  | Roll.Value value die => some (value, die)

/-- The `max_by_key` key of `get_highest_effect`:
`(die.sides(), -(value as i128))`. -/
def effectKey (p : Nat × Die) : Nat × Int := (p.2.sides, -(p.1 : Int))

/-- Strict lexicographic order on the `(u64, i128)` sort keys. -/
def lexGt (a b : Nat × Int) : Prop := b.1 < a.1 ∨ (a.1 = b.1 ∧ b.2 < a.2)

instance (a b : Nat × Int) : Decidable (lexGt a b) := by
  unfold lexGt; infer_instance

/-- Non-strict lexicographic order on the `(u64, i128)` sort keys. -/
def lexLe (a b : Nat × Int) : Prop := a.1 < b.1 ∨ (a.1 = b.1 ∧ a.2 ≤ b.2)

instance (a b : Nat × Int) : Decidable (lexLe a b) := by
  unfold lexLe; infer_instance

/-- Rust `Iterator::max_by_key`: the documented semantics keep the *last*
element among several equally maximal ones. -/
def max_by_key {α : Type} (key : α → Nat × Int) (l : List α) : Option α :=
  l.foldl (fun acc x =>
    match acc with
    | none => some x
    | some a => if lexGt (key a) (key x) then some a else some x) none

/-- `RollResult::get_highest_effect` from `sparkle.rs`. -/
def get_highest_effect (rolled_die : List Roll) : FinalResult :=
  let vals := (rolled_die.filterMap pairMap).enum
  match max_by_key (fun p => effectKey p.2) vals with
  | none => FinalResult.Botch
  | some (effect_idx, p) =>
    let effect := p.2
    if vals.length < 3 then
      FinalResult.Result ((vals.map (fun q => q.2.1)).sum) Die.D4
    else
      let remaining_vals := (vals.filter (fun q => q.1 != effect_idx)).map
        (fun q => q.2.1)
      let sortedv := remaining_vals.insertionSort (· ≤ ·)
      FinalResult.Result ((sortedv.reverse.take 2).sum) effect

/-- The `sort_by_key` key of `get_highest_total`: glitches get `(0, 0)`, the
other rolls `(value, -(sides as i128))` (a shimmer contributes its ultimate
die). -/
def totalKey : Roll → Nat × Int
  | Roll.Glitch _ => (0, 0)
  | Roll.Shimmer _ ultimate _ value => (value, -(ultimate.sides : Int))
  | Roll.Value v d => (v, -(d.sides : Int))

/-- The sort order used by `get_highest_total`. -/
def sortRel (a b : Roll) : Prop := lexLe (totalKey a) (totalKey b)

instance (a b : Roll) : Decidable (sortRel a b) := by
  unfold sortRel; infer_instance

instance : IsTotal Roll sortRel :=
  ⟨fun a b => by unfold sortRel lexLe; omega⟩

instance : IsTrans Roll sortRel :=
  ⟨fun a b c => by unfold sortRel lexLe; omega⟩

/-- The in-place stable `sort_by_key` performed by `get_highest_total`. -/
def sortGHT (rolled_die : List Roll) : List Roll :=
  rolled_die.insertionSort sortRel

/-- The `filter_map` of the total computation in `get_highest_total`. -/
def nonGlitchValue? : Roll → Option Nat
  | Roll.Glitch _ => none
  | Roll.Value v _ => some v
  | Roll.Shimmer _ _ _ value => some value

/-- The `filter_map` of the effect computation in `get_highest_total`. -/
def nonGlitchDie? : Roll → Option Die
  | Roll.Glitch _ => none
  | Roll.Shimmer _ ultimate _ _ => some ultimate
  | Roll.Value _ die => some die

/-- Rust `Iterator::max` over dice (derived `Ord` on `Die` compares by
declaration order, i.e. by `Die.rank`; the last maximum wins). -/
def dieMaxLast (l : List Die) : Option Die :=
  l.foldl (fun acc d =>
    match acc with
    | none => some d
    | some a => if d.rank < a.rank then some a else some d) none

/-- `RollResult::get_highest_total` from `sparkle.rs` (`iter().rev().take(2)`
is the reversed last-two slice, `iter().rev().skip(2)` the reversed rest). -/
def get_highest_total (rolled_die : List Roll) : FinalResult :=
  let sorted := sortGHT rolled_die
  let total := ((sorted.reverse.take 2).filterMap nonGlitchValue?).sum
  if total = 0 then FinalResult.Botch
  else
    FinalResult.Result total
      ((dieMaxLast ((sorted.reverse.drop 2).filterMap nonGlitchDie?)).getD
        Die.D4)

/-- Specification-side helper: the sum of the two largest values of a list
(sort descending, take two). -/
def topTwoSum (l : List Nat) : Nat :=
  ((l.insertionSort (· ≥ ·)).take 2).sum

/-- One step of the `max_by_key` fold. -/
def mbkStep {α : Type} (key : α → Nat × Int) (acc : Option α) (x : α) :
    Option α :=
  match acc with
  | none => some x
  | some a => if lexGt (key a) (key x) then some a else some x

/-- One step of the `dieMaxLast` fold. -/
def dmlStep (acc : Option Die) (d : Die) : Option Die :=
  match acc with
  | none => some d
  | some a => if d.rank < a.rank then some a else some d

/-- `RollResult::short_summary` from `sparkle.rs`.  The source computes
`get_highest_effect` on the list as given, then `get_highest_total` (whose
in-place sort only affects later observations of the list, modelled by
`sortGHT`). -/
def short_summary (rolled_die : List Roll) : String :=
  if is_botch rolled_die then "**BOTCH!**"
  else
    let glitch_count := (rolled_die.filter Roll.is_glitch).length
    let s := if glitch_count > 0 then toString glitch_count ++ " Glitches!\n"
      else ""
    let shimmer_count := (rolled_die.filter Roll.is_shimmer).length
    let s := s ++ (if shimmer_count > 0 then
      toString shimmer_count ++ " Shimmers!\n" else "")
    match get_highest_effect rolled_die, get_highest_total rolled_die with
    | FinalResult.Botch, _ => "Internal error, disagreement on botch??"
    | _, FinalResult.Botch => "Internal error, disagreement on botch??"
    | FinalResult.Result etotal eeffect, FinalResult.Result ttotal teffect =>
      if FinalResult.Result etotal eeffect = FinalResult.Result ttotal teffect
      then s ++ ("Total: " ++ (toString etotal ++ (" (effect " ++
        (eeffect.display ++ ")"))))
      else s ++ ("Best effect: " ++ (toString etotal ++ (" (effect " ++
          (eeffect.display ++ ")\n")))) ++
        ("Best total: " ++ (toString ttotal ++ (" (effect " ++
          (teffect.display ++ ")\n"))))

/-- Specification-side helper: the side count a token requests — the whole
token as an integer for a bare-integer token, else the integer after the
first `d`. -/
def requestedSides (s : String) : Option Int :=
  match parseI32? (trimChars s.toList) with
  | some v => some v
  | none =>
    match s.toList.findIdx? (· = 'd') with
    | none => none
    | some idx => parseI32? (trimChars (s.toList.drop (idx + 1)))

/-! ### Order lemmas for the `(u64, i128)` lexicographic sort keys -/

theorem lex_not_gt {a b : Nat × Int} : ¬ lexGt a b ↔ lexLe a b := by
  unfold lexGt lexLe; omega

theorem lexLe_refl (a : Nat × Int) : lexLe a a := by unfold lexLe; omega

theorem lexLe_trans {a b c : Nat × Int} (h1 : lexLe a b) (h2 : lexLe b c) :
    lexLe a c := by
  unfold lexLe at *; omega

theorem lexLe_total (a b : Nat × Int) : lexLe a b ∨ lexLe b a := by
  unfold lexLe; omega

theorem lexLe_of_lexGt {a b : Nat × Int} (h : lexGt a b) : lexLe b a := by
  unfold lexGt at h; unfold lexLe; omega

theorem lexLe_antisymm {a b : Nat × Int} (h1 : lexLe a b) (h2 : lexLe b a) :
    a = b := by
  unfold lexLe at *
  have : a.1 = b.1 ∧ a.2 = b.2 := by omega
  exact Prod.ext this.1 this.2

/-! ### Properties of the `max_by_key` fold -/

theorem max_by_key_eq_foldl {α : Type} (key : α → Nat × Int) (l : List α) :
    max_by_key key l = l.foldl (mbkStep key) none := rfl

/-- Master property of the fold started on a nonempty prefix: the result is a
member, is an upper bound for the keys, and everything strictly after it has a
strictly smaller key (Rust's documented last-wins tie behavior). -/
theorem foldl_mbk_spec {α : Type} (key : α → Nat × Int) :
    ∀ (l : List α) (a : α), ∃ r, l.foldl (mbkStep key) (some a) = some r ∧
      (∀ b ∈ a :: l, lexLe (key b) (key r)) ∧
      ∃ l₁ l₂, a :: l = l₁ ++ r :: l₂ ∧ ∀ b ∈ l₂, lexGt (key r) (key b) := by
  intro l
  induction l with
  | nil =>
    intro a
    exact ⟨a, rfl, by simp [lexLe_refl], [], [], rfl, by simp⟩
  | cons x xs ih =>
    intro a
    by_cases hax : lexGt (key a) (key x)
    · obtain ⟨r, hr, hub, m₁, m₂, hsplit, hstrict⟩ := ih a
      refine ⟨r, ?_, ?_, ?_⟩
      · simpa [List.foldl_cons, mbkStep, hax] using hr
      · intro b hb
        rcases hb with _ | ⟨_, hb⟩
        · exact hub a (List.mem_cons_self a xs)
        rcases hb with _ | ⟨_, hb⟩
        · exact lexLe_trans (lexLe_of_lexGt hax)
            (hub a (List.mem_cons_self a xs))
        · exact hub b (List.mem_cons_of_mem a hb)
      · match m₁, hsplit with
        | [], hsplit =>
          obtain ⟨rfl, rfl⟩ : a = r ∧ xs = m₂ := by
            simpa using hsplit
          exact ⟨[], x :: xs, rfl, fun b hb => by
            rcases hb with _ | ⟨_, hb⟩
            · exact hax
            · exact hstrict b hb⟩
        | a' :: m₁', hsplit =>
          obtain ⟨rfl, hxs⟩ : a = a' ∧ xs = m₁' ++ r :: m₂ := by
            simpa using hsplit
          exact ⟨a :: x :: m₁', m₂, by simp [hxs], hstrict⟩
    · obtain ⟨r, hr, hub, m₁, m₂, hsplit, hstrict⟩ := ih x
      have hle : lexLe (key a) (key x) := lex_not_gt.mp hax
      refine ⟨r, ?_, ?_, ?_⟩
      · simpa [List.foldl_cons, mbkStep, hax] using hr
      · intro b hb
        rcases hb with _ | ⟨_, hb⟩
        · exact lexLe_trans hle (hub x (List.mem_cons_self x xs))
        · exact hub b hb
      · exact ⟨a :: m₁, m₂, by simp [hsplit], hstrict⟩

theorem max_by_key_spec {α : Type} (key : α → Nat × Int) {l : List α} {r : α}
    (h : max_by_key key l = some r) :
    (∀ b ∈ l, lexLe (key b) (key r)) ∧
      ∃ l₁ l₂, l = l₁ ++ r :: l₂ ∧ ∀ b ∈ l₂, lexGt (key r) (key b) := by
  match l with
  | [] => simp [max_by_key] at h
  | x :: xs =>
    obtain ⟨r', hr', hub, l₁, l₂, hsplit, hstrict⟩ := foldl_mbk_spec key xs x
    rw [max_by_key_eq_foldl] at h
    simp only [List.foldl_cons, mbkStep] at h
    rw [hr'] at h
    cases h
    exact ⟨hub, l₁, l₂, hsplit, hstrict⟩

theorem max_by_key_mem {α : Type} (key : α → Nat × Int) {l : List α} {r : α}
    (h : max_by_key key l = some r) : r ∈ l := by
  obtain ⟨-, l₁, l₂, hsplit, -⟩ := max_by_key_spec key h
  rw [hsplit]; exact List.mem_append_right _ (List.mem_cons_self r l₂)

theorem max_by_key_eq_none {α : Type} (key : α → Nat × Int) {l : List α} :
    max_by_key key l = none ↔ l = [] := by
  match l with
  | [] => simp [max_by_key]
  | x :: xs =>
    obtain ⟨r', hr', -, -⟩ := foldl_mbk_spec key xs x
    rw [max_by_key_eq_foldl]
    simp only [List.foldl_cons, mbkStep, hr']
    simp

/-- The chosen element is the last element of its key-tie class. -/
theorem max_by_key_filter_getLast {α : Type} (key : α → Nat × Int)
    {l : List α} {r : α} (h : max_by_key key l = some r) :
    ∃ pre, l.filter (fun x => decide (key x = key r)) = pre ++ [r] := by
  obtain ⟨-, l₁, l₂, hsplit, hstrict⟩ := max_by_key_spec key h
  have h2 : l₂.filter (fun x => decide (key x = key r)) = [] := by
    rw [List.filter_eq_nil_iff]
    intro b hb
    have := hstrict b hb
    unfold lexGt at this
    simp only [decide_eq_true_eq]
    intro hkey
    rw [hkey] at this
    omega
  refine ⟨l₁.filter (fun x => decide (key x = key r)), ?_⟩
  rw [hsplit, List.filter_append, List.filter_cons]
  simp [h2]

/-! ### Properties of the `Iterator::max` fold over dice -/

theorem foldl_dml_spec :
    ∀ (l : List Die) (a : Die), ∃ r, l.foldl dmlStep (some a) = some r ∧
      r ∈ a :: l ∧ ∀ b ∈ a :: l, b.rank ≤ r.rank := by
  intro l
  induction l with
  | nil => intro a; exact ⟨a, rfl, List.mem_cons_self a [], by simp⟩
  | cons x xs ih =>
    intro a
    by_cases hax : x.rank < a.rank
    · obtain ⟨r, hr, hmem, hub⟩ := ih a
      refine ⟨r, by simpa [List.foldl_cons, dmlStep, hax] using hr, ?_, ?_⟩
      · rcases hmem with _ | ⟨_, hm⟩
        · exact List.mem_cons_self a _
        · exact List.mem_cons_of_mem a (List.mem_cons_of_mem x hm)
      · intro b hb
        rcases hb with _ | ⟨_, hb⟩
        · exact hub a (List.mem_cons_self a xs)
        rcases hb with _ | ⟨_, hb⟩
        · exact Nat.le_trans (Nat.le_of_lt hax) (hub a (List.mem_cons_self a xs))
        · exact hub b (List.mem_cons_of_mem a hb)
    · obtain ⟨r, hr, hmem, hub⟩ := ih x
      refine ⟨r, by simpa [List.foldl_cons, dmlStep, hax] using hr, ?_, ?_⟩
      · rcases hmem with _ | ⟨_, hm⟩
        · exact List.mem_cons_of_mem a (List.mem_cons_self x xs)
        · exact List.mem_cons_of_mem a (List.mem_cons_of_mem x hm)
      · intro b hb
        rcases hb with _ | ⟨_, hb⟩
        · exact Nat.le_trans (Nat.le_of_not_lt hax)
            (hub x (List.mem_cons_self x xs))
        · exact hub b hb

theorem dieMaxLast_eq_foldl (l : List Die) :
    dieMaxLast l = l.foldl dmlStep none := rfl

theorem dieMaxLast_spec {l : List Die} {r : Die} (h : dieMaxLast l = some r) :
    r ∈ l ∧ ∀ b ∈ l, b.rank ≤ r.rank := by
  match l with
  | [] => simp [dieMaxLast] at h
  | x :: xs =>
    obtain ⟨r', hr', hmem, hub⟩ := foldl_dml_spec xs x
    rw [dieMaxLast_eq_foldl] at h
    simp only [List.foldl_cons, dmlStep] at h
    rw [hr'] at h
    cases h
    exact ⟨hmem, hub⟩

theorem dieMaxLast_eq_none {l : List Die} : dieMaxLast l = none ↔ l = [] := by
  match l with
  | [] => simp [dieMaxLast]
  | x :: xs =>
    obtain ⟨r', hr', -, -⟩ := foldl_dml_spec xs x
    rw [dieMaxLast_eq_foldl]
    simp only [List.foldl_cons, dmlStep, hr']
    simp

/-! ### Stability of the modelled `sort_by_key` -/

theorem filter_orderedInsert_pos {r : Roll → Roll → Prop} [DecidableRel r]
    (q : Roll → Bool) (x : Roll) (hqx : q x = true)
    (htied : ∀ b, q b = true → r x b) :
    ∀ L, (List.orderedInsert r x L).filter q = x :: L.filter q := by
  intro L
  induction L with
  | nil => simp [List.orderedInsert, hqx]
  | cons y ys ih =>
    by_cases hxy : r x y
    · simp [List.orderedInsert, hxy, hqx]
    · have hqy : q y = false := by
        cases hy : q y
        · rfl
        · exact absurd (htied y hy) hxy
      simp [List.orderedInsert, hxy, List.filter_cons, hqy, ih]

theorem filter_orderedInsert_neg {r : Roll → Roll → Prop} [DecidableRel r]
    (q : Roll → Bool) (x : Roll) (hqx : q x = false) :
    ∀ L, (List.orderedInsert r x L).filter q = L.filter q := by
  intro L
  induction L with
  | nil => simp [List.orderedInsert, hqx]
  | cons y ys ih =>
    by_cases hxy : r x y
    · simp [List.orderedInsert, hxy, hqx]
    · simp only [List.orderedInsert, if_neg hxy, List.filter_cons]
      rw [ih]

/-- Stability of insertion sort: a class of mutually tied elements keeps its
original relative order, expressed through `filter`. -/
theorem insertionSort_filter_tied {r : Roll → Roll → Prop} [DecidableRel r]
    (q : Roll → Bool) (htied : ∀ a b, q a = true → q b = true → r a b) :
    ∀ L, (List.insertionSort r L).filter q = L.filter q := by
  intro L
  induction L with
  | nil => simp
  | cons a l ih =>
    rw [List.insertionSort]
    cases hqa : q a
    · rw [filter_orderedInsert_neg q a hqa, ih, List.filter_cons, hqa]
      simp
    · rw [filter_orderedInsert_pos q a hqa (fun b hb => htied a b hqa hb), ih,
        List.filter_cons, hqa]
      simp

/-! ### The index filter in `get_highest_effect` is `eraseIdx` -/

theorem enumFrom_filter_ne {α : Type} (l : List α) :
    ∀ (n i : Nat),
      ((List.enumFrom n l).filter (fun p => p.1 != i)).map Prod.snd =
        if i < n then l else l.eraseIdx (i - n) := by
  induction l with
  | nil => intro n i; simp
  | cons a t ih =>
    intro n i
    rcases Nat.lt_trichotomy i n with hlt | heq | hgt
    · have hne : (n != i) = true := by simp; omega
      rw [if_pos hlt]
      simp only [List.enumFrom, List.filter_cons, hne, if_true, List.map_cons,
        ih (n + 1) i, if_pos (Nat.lt_succ_of_lt hlt)]
    · subst heq
      have hne : (i != i) = false := by simp
      rw [if_neg (Nat.lt_irrefl i), Nat.sub_self]
      simp only [List.enumFrom, List.filter_cons, hne, Bool.false_eq_true,
        if_false, ih (i + 1) i, if_pos (Nat.lt_succ_self i),
        List.eraseIdx_cons_zero]
    · have hne : (n != i) = true := by simp; omega
      have h1 : ¬ i < n := by omega
      have h2 : ¬ i < n + 1 := by omega
      have h3 : i - n = (i - (n + 1)) + 1 := by omega
      rw [if_neg h1, h3, List.eraseIdx_cons_succ]
      simp only [List.enumFrom, List.filter_cons, hne, if_true, List.map_cons,
        ih (n + 1) i, if_neg h2]

theorem enum_filter_ne {α : Type} (l : List α) (i : Nat) :
    ((l.enum.filter (fun p => p.1 != i)).map Prod.snd) = l.eraseIdx i := by
  have := enumFrom_filter_ne l 0 i
  simpa [List.enum] using this

/-! ### Ascending sort reversed is the descending sort -/

theorem reverse_insertionSort_le (R : List Nat) :
    (R.insertionSort (· ≤ ·)).reverse = R.insertionSort (· ≥ ·) := by
  have hperm : (R.insertionSort (· ≤ ·)).reverse.Perm
      (R.insertionSort (· ≥ ·)) :=
    ((R.insertionSort (· ≤ ·)).reverse_perm.trans
      (List.perm_insertionSort (· ≤ ·) R)).trans
      (List.perm_insertionSort (· ≥ ·) R).symm
  have hs1 : List.Sorted (· ≥ ·) (R.insertionSort (· ≤ ·)).reverse := by
    rw [List.Sorted, List.pairwise_reverse]
    exact List.sorted_insertionSort (· ≤ ·) R
  have hs2 : List.Sorted (· ≥ ·) (R.insertionSort (· ≥ ·)) :=
    List.sorted_insertionSort (· ≥ ·) R
  exact List.eq_of_perm_of_sorted hperm hs1 hs2

theorem sort_rev_take_two_sum (R : List Nat) :
    (((R.insertionSort (· ≤ ·)).reverse).take 2).sum = topTwoSum R := by
  rw [reverse_insertionSort_le, topTwoSum]

/-! ### Enumeration helpers -/

theorem enumFrom_map_snd {α : Type} (l : List α) :
    ∀ n, (List.enumFrom n l).map Prod.snd = l := by
  induction l with
  | nil => intro n; rfl
  | cons a t ih => intro n; simp [List.enumFrom, ih]

theorem enum_map_snd {α : Type} (l : List α) :
    l.enum.map Prod.snd = l :=
  enumFrom_map_snd l 0

theorem enum_eq_nil_iff {α : Type} {l : List α} : l.enum = [] ↔ l = [] := by
  constructor
  · intro h
    have := congrArg List.length h
    rw [List.enum_length] at this
    exact List.eq_nil_of_length_eq_zero this
  · intro h; subst h; rfl

theorem mem_enum_iff_getElem {α : Type} {l : List α} {i : Nat} {x : α} :
    (i, x) ∈ l.enum ↔ ∃ h : i < l.length, l[i] = x := by
  constructor
  · intro hm
    obtain ⟨n, hn, heq⟩ := List.mem_iff_getElem.mp hm
    rw [List.getElem_enum] at heq
    obtain ⟨h1, h2⟩ := Prod.mk.injEq .. ▸ heq
    subst h1
    exact ⟨by simpa [List.enum_length] using hn, h2⟩
  · intro ⟨h, hx⟩
    have hi : i < l.enum.length := by simpa [List.enum_length] using h
    have : l.enum[i] = (i, x) := by rw [List.getElem_enum, hx]
    exact this ▸ List.getElem_mem hi

/-! ### Unfolding equation for `get_highest_effect` -/

theorem get_highest_effect_def (rolls : List Roll) :
    get_highest_effect rolls =
      match max_by_key (fun p => effectKey p.2)
          (rolls.filterMap pairMap).enum with
      | none => FinalResult.Botch
      | some (effect_idx, p) =>
        if (rolls.filterMap pairMap).enum.length < 3 then
          FinalResult.Result
            (((rolls.filterMap pairMap).enum.map (fun q => q.2.1)).sum) Die.D4
        else
          FinalResult.Result
            ((((((rolls.filterMap pairMap).enum.filter
                  (fun q => q.1 != effect_idx)).map
                (fun q => q.2.1)).insertionSort (· ≤ ·)).reverse.take 2).sum)
            p.2 := rfl

theorem map_snd_fst_enum {α β : Type} (l : List (α × β)) :
    l.enum.map (fun q => q.2.1) = l.map Prod.fst := by
  rw [show (fun q : Nat × (α × β) => q.2.1) = (Prod.fst ∘ Prod.snd) from rfl,
    ← List.map_map, enum_map_snd]

/-- C1: `get_highest_effect` discards glitches (a shimmer contributing
`(value, ultimate)`, a plain value `(value, die)`), returns `Botch` exactly
when nothing remains, sums all values with effect `d4` when fewer than three
remain, and otherwise reserves a roll maximal by side-count (ties preferring
the smallest value), removes it, and sums the two largest remaining values
with the reserved roll's die as effect. -/
theorem C1_get_highest_effect (rolls : List Roll) :
    (get_highest_effect rolls = FinalResult.Botch ↔
      rolls.filterMap pairMap = []) ∧
    (rolls.filterMap pairMap ≠ [] → (rolls.filterMap pairMap).length < 3 →
      get_highest_effect rolls =
        FinalResult.Result ((rolls.filterMap pairMap).map Prod.fst).sum
          Die.D4) ∧
    (3 ≤ (rolls.filterMap pairMap).length →
      ∃ i : Fin (rolls.filterMap pairMap).length,
        (∀ j : Fin (rolls.filterMap pairMap).length,
          ((rolls.filterMap pairMap).get j).2.sides <
              ((rolls.filterMap pairMap).get i).2.sides ∨
          (((rolls.filterMap pairMap).get j).2.sides =
              ((rolls.filterMap pairMap).get i).2.sides ∧
            ((rolls.filterMap pairMap).get i).1 ≤
              ((rolls.filterMap pairMap).get j).1)) ∧
        get_highest_effect rolls =
          FinalResult.Result
            (topTwoSum
              (((rolls.filterMap pairMap).eraseIdx i).map Prod.fst))
            ((rolls.filterMap pairMap).get i).2) := by
  set L := rolls.filterMap pairMap with hL
  rw [get_highest_effect_def, ← hL]
  cases hmk : max_by_key (fun p => effectKey p.2) L.enum with
  | none =>
    have hnil : L = [] := enum_eq_nil_iff.mp ((max_by_key_eq_none _).mp hmk)
    refine ⟨by simp [hnil], ?_, ?_⟩
    · intro hne _; exact absurd hnil hne
    · intro h3; rw [hnil] at h3; simp at h3
  | some ep =>
    obtain ⟨effect_idx, p⟩ := ep
    have hmem : (effect_idx, p) ∈ L.enum := max_by_key_mem _ hmk
    obtain ⟨hlt, hget⟩ := mem_enum_iff_getElem.mp hmem
    obtain ⟨hub, -⟩ := max_by_key_spec _ hmk
    have hLne : L ≠ [] := by
      intro h; rw [h] at hlt; simp at hlt
    refine ⟨?_, ?_, ?_⟩
    · simp only []
      constructor
      · intro h
        by_cases hlen : L.enum.length < 3
        · rw [if_pos hlen] at h; exact absurd h (by simp)
        · rw [if_neg hlen] at h; exact absurd h (by simp)
      · intro h; exact absurd h hLne
    · intro _ hlen
      have hlen' : L.enum.length < 3 := by rwa [List.enum_length]
      simp only [if_pos hlen', map_snd_fst_enum]
    · intro h3
      have hlen' : ¬ L.enum.length < 3 := by rw [List.enum_length]; omega
      refine ⟨⟨effect_idx, hlt⟩, ?_, ?_⟩
      · intro j
        have hjm : (j.1, L.get j) ∈ L.enum :=
          mem_enum_iff_getElem.mpr ⟨j.isLt, (List.get_eq_getElem L j).symm⟩
        have := hub _ hjm
        simp only [effectKey, lexLe] at this
        have hpi : L.get ⟨effect_idx, hlt⟩ = p := by
          rw [List.get_eq_getElem]; exact hget
        rw [hpi]
        rcases this with h | ⟨h1, h2⟩
        · left; exact h
        · right; exact ⟨h1, by omega⟩
      · simp only [if_neg hlen']
        have hfm : ((L.enum.filter (fun q => q.1 != effect_idx)).map
            (fun q => q.2.1)) = (L.eraseIdx effect_idx).map Prod.fst := by
          rw [show (fun q : Nat × (Nat × Die) => q.2.1) =
            (Prod.fst ∘ Prod.snd) from rfl, ← List.map_map, enum_filter_ne]
        rw [hfm, sort_rev_take_two_sum]
        have hpi : L.get ⟨effect_idx, hlt⟩ = p := by
          rw [List.get_eq_getElem]; exact hget
        rw [hpi]

/-! ### C1 witness -/

/-- Witness instantiating `C1_get_highest_effect` at a concrete two-roll
list. -/
theorem C1_get_highest_effect_witness :
    get_highest_effect [Roll.Value 1 Die.D4, Roll.Value 2 Die.D6] =
      FinalResult.Result
        ((([Roll.Value 1 Die.D4, Roll.Value 2 Die.D6].filterMap pairMap).map
          Prod.fst).sum) Die.D4 :=
  (C1_get_highest_effect [Roll.Value 1 Die.D4, Roll.Value 2 Die.D6]).2.1
    (by decide) (by decide)

/-! ### C2: characterization of `get_highest_total` -/

theorem get_highest_total_def (rolls : List Roll) :
    get_highest_total rolls =
      if (((sortGHT rolls).reverse.take 2).filterMap nonGlitchValue?).sum = 0
      then FinalResult.Botch
      else
        FinalResult.Result
          ((((sortGHT rolls).reverse.take 2).filterMap nonGlitchValue?).sum)
          ((dieMaxLast
            (((sortGHT rolls).reverse.drop 2).filterMap nonGlitchDie?)).getD
            Die.D4) := rfl

theorem total_slice_eq (rolls : List Roll) :
    (((sortGHT rolls).reverse.take 2).filterMap nonGlitchValue?).sum =
      ((((sortGHT rolls).drop ((sortGHT rolls).length - 2)).filterMap
        nonGlitchValue?)).sum := by
  rw [List.take_reverse, List.filterMap_reverse, List.sum_reverse]

theorem rest_slice_eq (rolls : List Roll) :
    ((sortGHT rolls).reverse.drop 2).filterMap nonGlitchDie? =
      (((sortGHT rolls).take ((sortGHT rolls).length - 2)).filterMap
        nonGlitchDie?).reverse := by
  rw [List.drop_reverse, List.filterMap_reverse]

/-- C2 (amended): `get_highest_total` sorts the rolls ascending by the key
`(value, -sides)` — a glitch getting key `(0, 0)`, which sorts before every
roll of nonzero value — takes as total the sum of the non-glitch values among
the last two entries of the sorted list, returns `Botch` exactly when that
total is zero, and otherwise takes as effect the maximum die among the
remaining entries (glitches excluded), defaulting to `d4` when none remain. -/
theorem C2_get_highest_total (rolls : List Roll) :
    List.Sorted sortRel (sortGHT rolls) ∧ (sortGHT rolls).Perm rolls ∧
    (∀ d : Die, totalKey (Roll.Glitch d) = (0, 0)) ∧
    (∀ (d : Die) (r : Roll), 1 ≤ (totalKey r).1 →
      lexGt (totalKey r) (totalKey (Roll.Glitch d))) ∧
    ((((sortGHT rolls).drop ((sortGHT rolls).length - 2)).filterMap
        nonGlitchValue?).sum = 0 →
      get_highest_total rolls = FinalResult.Botch) ∧
    ((((sortGHT rolls).drop ((sortGHT rolls).length - 2)).filterMap
        nonGlitchValue?).sum ≠ 0 →
      ∃ e : Die,
        get_highest_total rolls =
          FinalResult.Result
            ((((sortGHT rolls).drop ((sortGHT rolls).length - 2)).filterMap
              nonGlitchValue?).sum) e ∧
        ((((sortGHT rolls).take ((sortGHT rolls).length - 2)).filterMap
            nonGlitchDie?) = [] → e = Die.D4) ∧
        ((((sortGHT rolls).take ((sortGHT rolls).length - 2)).filterMap
            nonGlitchDie?) ≠ [] →
          e ∈ ((sortGHT rolls).take ((sortGHT rolls).length - 2)).filterMap
            nonGlitchDie? ∧
          ∀ d ∈ ((sortGHT rolls).take ((sortGHT rolls).length - 2)).filterMap
            nonGlitchDie?, d.rank ≤ e.rank)) := by
  refine ⟨List.sorted_insertionSort sortRel rolls,
    List.perm_insertionSort sortRel rolls, fun d => rfl, ?_, ?_, ?_⟩
  · intro d r h
    unfold lexGt
    cases r <;> simp only [totalKey] at h ⊢ <;> omega
  · intro h0
    rw [get_highest_total_def, if_pos (by rw [total_slice_eq]; exact h0)]
  · intro h0
    rw [get_highest_total_def, if_neg (by rw [total_slice_eq]; exact h0)]
    set rest := ((sortGHT rolls).take ((sortGHT rolls).length - 2)).filterMap
      nonGlitchDie? with hrest
    by_cases hre : rest = []
    · refine ⟨Die.D4, ?_, fun _ => rfl, fun h => absurd hre h⟩
      rw [total_slice_eq, rest_slice_eq, ← hrest, hre]
      rfl
    · have hrevne : rest.reverse ≠ [] := by
        rwa [ne_eq, List.reverse_eq_nil_iff]
      cases hdm : dieMaxLast rest.reverse with
      | none => exact absurd (dieMaxLast_eq_none.mp hdm) hrevne
      | some e =>
        obtain ⟨hmem, hub⟩ := dieMaxLast_spec hdm
        refine ⟨e, ?_, fun h => absurd h hre, fun _ => ?_⟩
        · rw [total_slice_eq, rest_slice_eq, ← hrest, hdm]
          rfl
        · exact ⟨List.mem_reverse.mp hmem,
            fun d hd => hub d (List.mem_reverse.mpr hd)⟩

/-- C2 counterexample: a glitch is *not* given the minimum key and does not
sort to the very front when a zero-valued roll is present — the zero-valued
`d6` roll has key `(0, -6) < (0, 0)` and sorts before the glitch. -/
theorem C2_glitch_not_front_counterexample :
    sortGHT [Roll.Glitch Die.D4, Roll.Value 0 Die.D6] =
      [Roll.Value 0 Die.D6, Roll.Glitch Die.D4] := by decide

/-- Witness instantiating the Botch branch of `C2_get_highest_total`. -/
theorem C2_get_highest_total_witness :
    get_highest_total [Roll.Glitch Die.D4] = FinalResult.Botch :=
  (C2_get_highest_total [Roll.Glitch Die.D4]).2.2.2.2.1 (by decide)

/-! ### C4: neither evaluator returns Botch given a positive non-glitch -/

theorem pairMap_mem_of_nonglitch {rolls : List Roll} {r : Roll}
    {p : Nat × Die} (hmem : r ∈ rolls) (hpm : pairMap r = some p) :
    p ∈ rolls.filterMap pairMap :=
  List.mem_filterMap.mpr ⟨r, hmem, hpm⟩

theorem get_highest_effect_ne_botch {rolls : List Roll}
    (h : rolls.filterMap pairMap ≠ []) :
    get_highest_effect rolls ≠ FinalResult.Botch := by
  rw [get_highest_effect_def]
  split
  next heq =>
    exact absurd (enum_eq_nil_iff.mp ((max_by_key_eq_none _).mp heq)) h
  next effect_idx p heq =>
    split <;> simp

/-- Sorted lists have their maximum-key element at the back: anything in the
list is `sortRel`-below the head of the reversed list. -/
theorem sorted_rev_head_max {rolls : List Roll} {h : Roll} {t : List Roll}
    (hrev : (sortGHT rolls).reverse = h :: t) :
    ∀ r ∈ sortGHT rolls, sortRel r h := by
  intro r hr
  have hs : List.Pairwise (fun a b => sortRel b a) (sortGHT rolls).reverse := by
    rw [List.pairwise_reverse]
    exact List.sorted_insertionSort sortRel rolls
  rw [hrev] at hs
  have hr' : r ∈ h :: t := by
    rw [← hrev, List.mem_reverse]; exact hr
  rcases hr' with _ | ⟨_, hrt⟩
  · exact lexLe_refl _
  · exact (List.pairwise_cons.mp hs).1 r hrt

theorem get_highest_total_ne_botch {rolls : List Roll} {r : Roll}
    (hmem : r ∈ rolls) (hval : 1 ≤ (totalKey r).1) :
    get_highest_total rolls ≠ FinalResult.Botch := by
  have hmem' : r ∈ sortGHT rolls :=
    (List.perm_insertionSort sortRel rolls).mem_iff.mpr hmem
  cases hrev : (sortGHT rolls).reverse with
  | nil =>
    rw [List.reverse_eq_nil_iff] at hrev
    rw [hrev] at hmem'
    exact absurd hmem' (List.not_mem_nil r)
  | cons hd t =>
    have hle : sortRel r hd := sorted_rev_head_max hrev r hmem'
    have hhd : 1 ≤ (totalKey hd).1 := by
      rcases hle with h | ⟨h1, -⟩
      · omega
      · omega
    have hhd' : ∃ v, nonGlitchValue? hd = some v ∧ 1 ≤ v := by
      cases hd with
      | Glitch d => simp only [totalKey] at hhd; omega
      | Value v d => exact ⟨v, rfl, by simpa [totalKey] using hhd⟩
      | Shimmer ini ult sc v => exact ⟨v, rfl, by simpa [totalKey] using hhd⟩
    obtain ⟨v, hv, hv1⟩ := hhd'
    have hsum : 1 ≤ (((sortGHT rolls).reverse.take 2).filterMap
        nonGlitchValue?).sum := by
      rw [hrev]
      simp [hv]
      omega
    rw [get_highest_total_def, if_neg (by omega)]
    simp

theorem ne_of_mem_data {a b : String} (c : Char) (h1 : c ∈ a.data)
    (h2 : c ∉ b.data) : a ≠ b := fun h => h2 (h ▸ h1)

theorem paren_mem_append_data (s x y : String) (h : '(' ∈ y.data) :
    '(' ∈ (s ++ (x ++ y)).data := by
  rw [String.data_append, String.data_append]
  exact List.mem_append_right _ (List.mem_append_right _ h)

/-- C4 (amended): whenever some roll is a non-glitch with nonzero value,
neither evaluator returns `Botch`, and `short_summary` does not produce the
internal-error placeholder. -/
theorem C4_no_botch_disagreement (rolls : List Roll) (r : Roll) (v : Nat)
    (hmem : r ∈ rolls)
    (hr : (∃ d, r = Roll.Value v d) ∨
      ∃ ini ult sc, r = Roll.Shimmer ini ult sc v)
    (hv : 1 ≤ v) :
    get_highest_effect rolls ≠ FinalResult.Botch ∧
    get_highest_total rolls ≠ FinalResult.Botch ∧
    short_summary rolls ≠ "Internal error, disagreement on botch??" := by
  have hpm : ∃ p : Nat × Die, pairMap r = some p ∧ p.1 = v := by
    rcases hr with ⟨d, rfl⟩ | ⟨ini, ult, sc, rfl⟩
    · exact ⟨(v, d), rfl, rfl⟩
    · exact ⟨(v, ult), rfl, rfl⟩
  obtain ⟨p, hpmr, -⟩ := hpm
  have hkey : 1 ≤ (totalKey r).1 := by
    rcases hr with ⟨d, rfl⟩ | ⟨ini, ult, sc, rfl⟩ <;>
      simpa [totalKey] using hv
  have hne : rolls.filterMap pairMap ≠ [] := by
    intro h
    have := pairMap_mem_of_nonglitch hmem hpmr
    rw [h] at this
    exact absurd this (List.not_mem_nil p)
  have hE := get_highest_effect_ne_botch hne
  have hT := get_highest_total_ne_botch hmem hkey
  refine ⟨hE, hT, ?_⟩
  have hb : is_botch rolls = false := by
    unfold is_botch
    rw [List.all_eq_false]
    refine ⟨r, hmem, ?_⟩
    rcases hr with ⟨d, rfl⟩ | ⟨ini, ult, sc, rfl⟩ <;> simp [Roll.is_glitch]
  cases hEe : get_highest_effect rolls with
  | Botch => exact absurd hEe hE
  | Result etotal eeffect =>
    cases hTe : get_highest_total rolls with
    | Botch => exact absurd hTe hT
    | Result ttotal teffect =>
      simp only [short_summary, hb, Bool.false_eq_true, if_false, hEe, hTe]
      by_cases heq : FinalResult.Result etotal eeffect =
          FinalResult.Result ttotal teffect
      · rw [if_pos heq]
        exact ne_of_mem_data '('
          (paren_mem_append_data _ _ _ (by
            rw [String.data_append]
            exact List.mem_append_right _ (by
              rw [String.data_append]
              exact List.mem_append_left _ (by decide))))
          (by decide)
      · rw [if_neg heq]
        refine ne_of_mem_data '(' ?_ (by decide)
        rw [String.data_append]
        refine List.mem_append_right _ ?_
        rw [String.data_append]
        refine List.mem_append_right _ ?_
        rw [String.data_append]
        refine List.mem_append_right _ ?_
        rw [String.data_append]
        exact List.mem_append_left _ (by decide)

/-! ### C6: invariance under the in-place sort of `get_highest_total` -/

theorem totalKey_pairMap {r : Roll} {p : Nat × Die}
    (h : pairMap r = some p) : totalKey r = (p.1, -(p.2.sides : Int)) := by
  cases r with
  | Glitch d => exact absurd h (by simp [pairMap])
  | Value v d =>
    obtain rfl : (v, d) = p := by simpa [pairMap] using h
    rfl
  | Shimmer ini ult sc v =>
    obtain rfl : (v, ult) = p := by simpa [pairMap] using h
    rfl

theorem filterMap_filter_key (k : Nat × Int) (l : List Roll) :
    (l.filterMap pairMap).filter (fun p => decide (effectKey p = k)) =
      (l.filter (fun r =>
        decide ((pairMap r).map effectKey = some k))).filterMap pairMap := by
  induction l with
  | nil => rfl
  | cons a t ih =>
    cases hpm : pairMap a with
    | none =>
      rw [List.filterMap_cons_none hpm, List.filter_cons, ih]
      simp [hpm]
    | some p =>
      rw [List.filterMap_cons_some hpm, List.filter_cons, List.filter_cons]
      by_cases hk : effectKey p = k
      · simp only [hpm, Option.map_some, hk]
        rw [if_pos (by simp [hk]), if_pos (by simp [hk])]
        rw [List.filterMap_cons_some hpm, ih]
      · simp only [hpm, Option.map_some]
        rw [if_neg (by simpa using hk), if_neg (by simpa using hk), ih]

theorem sortGHT_filter_key (k : Nat × Int) (rolls : List Roll) :
    (sortGHT rolls).filter
        (fun r => decide ((pairMap r).map effectKey = some k)) =
      rolls.filter (fun r => decide ((pairMap r).map effectKey = some k)) := by
  apply insertionSort_filter_tied
  intro a b ha hb
  simp only [decide_eq_true_eq] at ha hb
  obtain ⟨pa, hpa, hka⟩ := Option.map_eq_some'.mp ha
  obtain ⟨pb, hpb, hkb⟩ := Option.map_eq_some'.mp hb
  have hta := totalKey_pairMap hpa
  have htb := totalKey_pairMap hpb
  have : pa.1 = pb.1 ∧ pa.2.sides = pb.2.sides := by
    have := hka.trans hkb.symm
    simp only [effectKey, Prod.mk.injEq] at this
    omega
  unfold sortRel
  rw [hta, htb, this.1, this.2]
  exact lexLe_refl _

theorem enum_filter_key_map_snd (L : List (Nat × Die)) (k : Nat × Int) :
    (L.enum.filter (fun x => decide (effectKey x.2 = k))).map Prod.snd =
      L.filter (fun p => decide (effectKey p = k)) := by
  have h := List.filter_map (p := fun p : Nat × Die => decide (effectKey p = k))
    (f := Prod.snd) (l := L.enum)
  rw [enum_map_snd] at h
  exact h.symm

theorem perm_cons_eraseIdx (L : List (Nat × Die)) (i : Nat)
    (h : i < L.length) : L.Perm (L[i] :: L.eraseIdx i) :=
  (List.perm_cons_erase (List.getElem_mem h)).trans
    ((List.erase_getElem h).cons L[i])

/-- Two permutations of the same non-glitch multiset with equal key-tie
classes make `max_by_key` pick the same pair. -/
theorem effect_choice_eq {L1 L2 : List (Nat × Die)} (hperm : L2.Perm L1)
    (hfilters : ∀ k, L2.filter (fun p => decide (effectKey p = k)) =
      L1.filter (fun p => decide (effectKey p = k)))
    {i1 i2 : Nat} {p1 p2 : Nat × Die}
    (h1 : max_by_key (fun p => effectKey p.2) L1.enum = some (i1, p1))
    (h2 : max_by_key (fun p => effectKey p.2) L2.enum = some (i2, p2)) :
    p1 = p2 := by
  obtain ⟨pre1, hf1⟩ := max_by_key_filter_getLast _ h1
  obtain ⟨pre2, hf2⟩ := max_by_key_filter_getLast _ h2
  have hm1 : (i1, p1) ∈ L1.enum := max_by_key_mem _ h1
  have hm2 : (i2, p2) ∈ L2.enum := max_by_key_mem _ h2
  obtain ⟨hi1, hg1⟩ := mem_enum_iff_getElem.mp hm1
  obtain ⟨hi2, hg2⟩ := mem_enum_iff_getElem.mp hm2
  have hp1L1 : p1 ∈ L1 := hg1 ▸ List.getElem_mem hi1
  have hp2L2 : p2 ∈ L2 := hg2 ▸ List.getElem_mem hi2
  have hp2L1 : p2 ∈ L1 := hperm.mem_iff.mp hp2L2
  have hp1L2 : p1 ∈ L2 := hperm.mem_iff.mpr hp1L1
  obtain ⟨j2, hj2lt, hj2⟩ := List.mem_iff_getElem.mp hp2L1
  obtain ⟨j1, hj1lt, hj1⟩ := List.mem_iff_getElem.mp hp1L2
  have hub1 := (max_by_key_spec _ h1).1
  have hub2 := (max_by_key_spec _ h2).1
  have hle21 : lexLe (effectKey p2) (effectKey p1) :=
    hub1 (j2, p2) (mem_enum_iff_getElem.mpr ⟨hj2lt, hj2⟩)
  have hle12 : lexLe (effectKey p1) (effectKey p2) :=
    hub2 (j1, p1) (mem_enum_iff_getElem.mpr ⟨hj1lt, hj1⟩)
  have hkeq : effectKey p1 = effectKey p2 := lexLe_antisymm hle12 hle21
  have hmap1 : L1.filter (fun p => decide (effectKey p = effectKey p1)) =
      pre1.map Prod.snd ++ [p1] := by
    have h := congrArg (List.map Prod.snd) hf1
    rw [enum_filter_key_map_snd] at h
    simpa using h
  have hmap2 : L2.filter (fun p => decide (effectKey p = effectKey p2)) =
      pre2.map Prod.snd ++ [p2] := by
    have h := congrArg (List.map Prod.snd) hf2
    rw [enum_filter_key_map_snd] at h
    simpa using h
  have hchain : pre1.map Prod.snd ++ [p1] = pre2.map Prod.snd ++ [p2] := by
    rw [← hmap1, ← hfilters (effectKey p1), hkeq, hmap2]
  have hfin := congrArg List.getLast? hchain
  rw [List.getLast?_concat, List.getLast?_concat] at hfin
  exact Option.some_inj.mp hfin

theorem get_highest_effect_sortGHT (rolls : List Roll) :
    get_highest_effect (sortGHT rolls) = get_highest_effect rolls := by
  have hpermR : (sortGHT rolls).Perm rolls :=
    List.perm_insertionSort sortRel rolls
  have hperm : ((sortGHT rolls).filterMap pairMap).Perm
      (rolls.filterMap pairMap) := hpermR.filterMap pairMap
  have hfilters : ∀ k,
      ((sortGHT rolls).filterMap pairMap).filter
        (fun p => decide (effectKey p = k)) =
      (rolls.filterMap pairMap).filter
        (fun p => decide (effectKey p = k)) := by
    intro k
    rw [filterMap_filter_key, filterMap_filter_key, sortGHT_filter_key]
  rw [get_highest_effect_def (sortGHT rolls), get_highest_effect_def rolls]
  cases hm2 : max_by_key (fun p => effectKey p.2)
      ((sortGHT rolls).filterMap pairMap).enum with
  | none =>
    have hL2 : (sortGHT rolls).filterMap pairMap = [] :=
      enum_eq_nil_iff.mp ((max_by_key_eq_none _).mp hm2)
    have hL1 : rolls.filterMap pairMap = [] := (hL2 ▸ hperm).symm.eq_nil
    have hm1 : max_by_key (fun p => effectKey p.2)
        (rolls.filterMap pairMap).enum = none := by
      rw [hL1]; rfl
    rw [hm1]
  | some ep2 =>
    obtain ⟨i2, p2⟩ := ep2
    cases hm1 : max_by_key (fun p => effectKey p.2)
        (rolls.filterMap pairMap).enum with
    | none =>
      have hL1 : rolls.filterMap pairMap = [] :=
        enum_eq_nil_iff.mp ((max_by_key_eq_none _).mp hm1)
      have hL2 : (sortGHT rolls).filterMap pairMap = [] :=
        (hL1 ▸ hperm).eq_nil
      rw [hL2] at hm2
      exact absurd hm2 (by simp [max_by_key])
    | some ep1 =>
      obtain ⟨i1, p1⟩ := ep1
      have hpeq : p1 = p2 := effect_choice_eq hperm hfilters hm1 hm2
      have hm1' : (i1, p1) ∈ (rolls.filterMap pairMap).enum :=
        max_by_key_mem _ hm1
      have hm2' : (i2, p2) ∈ ((sortGHT rolls).filterMap pairMap).enum :=
        max_by_key_mem _ hm2
      obtain ⟨hi1, hg1⟩ := mem_enum_iff_getElem.mp hm1'
      obtain ⟨hi2, hg2⟩ := mem_enum_iff_getElem.mp hm2'
      have hlen : ((sortGHT rolls).filterMap pairMap).length =
          (rolls.filterMap pairMap).length := hperm.length_eq
      by_cases h3 : (rolls.filterMap pairMap).enum.length < 3
      · have h3' : ((sortGHT rolls).filterMap pairMap).enum.length < 3 := by
          rw [List.enum_length] at *
          omega
        simp only [if_pos h3, if_pos h3', map_snd_fst_enum]
        exact congrArg (fun n => FinalResult.Result n Die.D4)
          ((hperm.map Prod.fst).sum_eq)
      · have h3' : ¬ ((sortGHT rolls).filterMap pairMap).enum.length < 3 := by
          rw [List.enum_length] at *
          omega
        simp only [if_neg h3, if_neg h3']
        have e1 : ((rolls.filterMap pairMap).enum.filter
            (fun q => q.1 != i1)).map (fun q => q.2.1) =
            ((rolls.filterMap pairMap).eraseIdx i1).map Prod.fst := by
          rw [show (fun q : Nat × (Nat × Die) => q.2.1) =
            (Prod.fst ∘ Prod.snd) from rfl, ← List.map_map, enum_filter_ne]
        have e2 : (((sortGHT rolls).filterMap pairMap).enum.filter
            (fun q => q.1 != i2)).map (fun q => q.2.1) =
            (((sortGHT rolls).filterMap pairMap).eraseIdx i2).map
              Prod.fst := by
          rw [show (fun q : Nat × (Nat × Die) => q.2.1) =
            (Prod.fst ∘ Prod.snd) from rfl, ← List.map_map, enum_filter_ne]
        have hpermA := perm_cons_eraseIdx _ i1 hi1
        have hpermB := perm_cons_eraseIdx _ i2 hi2
        rw [hg1] at hpermA
        rw [hg2] at hpermB
        have her : (((sortGHT rolls).filterMap pairMap).eraseIdx i2).Perm
            ((rolls.filterMap pairMap).eraseIdx i1) := by
          have hch : (p1 :: ((sortGHT rolls).filterMap pairMap).eraseIdx
              i2).Perm (p1 :: (rolls.filterMap pairMap).eraseIdx i1) :=
            (hpeq ▸ hpermB.symm).trans (hperm.trans hpermA)
          exact hch.cons_inv
        have hsort :
            ((((sortGHT rolls).filterMap pairMap).eraseIdx i2).map
              Prod.fst).insertionSort (· ≤ ·) =
            (((rolls.filterMap pairMap).eraseIdx i1).map
              Prod.fst).insertionSort (· ≤ ·) := by
          apply List.eq_of_perm_of_sorted
            (r := fun a b : Nat => a ≤ b)
          · exact ((List.perm_insertionSort _ _).trans
              (her.map Prod.fst)).trans
              (List.perm_insertionSort _ _).symm
          · exact List.sorted_insertionSort _ _
          · exact List.sorted_insertionSort _ _
        rw [e1, e2, hsort, hpeq]

theorem sortGHT_idempotent (rolls : List Roll) :
    sortGHT (sortGHT rolls) = sortGHT rolls :=
  List.Sorted.insertionSort_eq (List.sorted_insertionSort sortRel rolls)

theorem get_highest_total_sortGHT (rolls : List Roll) :
    get_highest_total (sortGHT rolls) = get_highest_total rolls := by
  unfold get_highest_total
  rw [sortGHT_idempotent]

theorem perm_all_eq {l1 l2 : List Roll} (h : l1.Perm l2) (f : Roll → Bool) :
    l1.all f = l2.all f := by
  have hiff : (l1.all f = true) ↔ (l2.all f = true) := by
    simp only [List.all_eq_true]
    exact ⟨fun H x hx => H x (h.mem_iff.mpr hx),
      fun H x hx => H x (h.mem_iff.mp hx)⟩
  cases h1 : l1.all f <;> cases h2 : l2.all f
  · rfl
  · exact absurd (hiff.mpr h2) (by simp [h1])
  · exact absurd (hiff.mp h1) (by simp [h2])
  · rfl

theorem short_summary_sortGHT (rolls : List Roll) :
    short_summary (sortGHT rolls) = short_summary rolls := by
  have hperm : (sortGHT rolls).Perm rolls :=
    List.perm_insertionSort sortRel rolls
  have h1 : is_botch (sortGHT rolls) = is_botch rolls :=
    perm_all_eq hperm Roll.is_glitch
  have h2 : ((sortGHT rolls).filter Roll.is_glitch).length =
      (rolls.filter Roll.is_glitch).length :=
    (hperm.filter Roll.is_glitch).length_eq
  have h3 : ((sortGHT rolls).filter Roll.is_shimmer).length =
      (rolls.filter Roll.is_shimmer).length :=
    (hperm.filter Roll.is_shimmer).length_eq
  have h4 := get_highest_effect_sortGHT rolls
  have h5 := get_highest_total_sortGHT rolls
  simp only [short_summary, h1, h2, h3, h4, h5]

/-- C6 (amended): the evaluation results and the rendered summary are
unchanged by the in-place sort that `get_highest_total` performs on the roll
list, so calling `short_summary` again after `get_highest_total` has sorted
the list yields the identical summary. -/
theorem C6_sort_invariance (rolls : List Roll) :
    get_highest_effect (sortGHT rolls) = get_highest_effect rolls ∧
    get_highest_total (sortGHT rolls) = get_highest_total rolls ∧
    short_summary (sortGHT rolls) = short_summary rolls :=
  ⟨get_highest_effect_sortGHT rolls, get_highest_total_sortGHT rolls,
    short_summary_sortGHT rolls⟩

/-- C6 counterexample: the evaluators are *not* a pure function of the
multiset of rolls.  The two lists below are permutations of each other, yet
`get_highest_effect` returns effect `D12` for one and `D10` for the other
(both dice have `sides() = 10`, so the last-wins `max_by_key` tie-break picks
whichever comes later). -/
theorem C6_permutation_counterexample :
    ([Roll.Value 5 Die.D10, Roll.Value 5 Die.D12,
        Roll.Value 2 Die.D4].Perm
      [Roll.Value 5 Die.D12, Roll.Value 5 Die.D10, Roll.Value 2 Die.D4]) ∧
    get_highest_effect
        [Roll.Value 5 Die.D10, Roll.Value 5 Die.D12, Roll.Value 2 Die.D4] ≠
      get_highest_effect
        [Roll.Value 5 Die.D12, Roll.Value 5 Die.D10, Roll.Value 2 Die.D4] := by
  constructor
  · exact List.Perm.swap _ _ _
  · decide

/-! ### C3: max-face rolls in the shimmer variant -/

theorem sides_ne_one (d : Die) : d.sides ≠ 1 := by
  cases d <;> simp [Die.sides]

theorem bump_gap {d : Die} (hd : d ≠ Die.D12) :
    d.gap = (d.bump_up).gap + 1 := by
  cases d
  · rfl
  · rfl
  · rfl
  · rfl
  · exact absurd rfl hd

/-- Behaviour of one cascade step of `rollGo` when the maximum face is
drawn on a non-maximal die. -/
theorem rollGo_succ_spec (rng : Nat → Nat) (i gap' : Nat) (d : Die)
    (hd : d ≠ Die.D12) (hnum : rng i = d.sides) :
    ((∃ ult sc v, rollGo rng (gap' + 1) i d = Roll.Shimmer d ult sc v ∧
        d.sides ≤ v) ∨
      rollGo rng (gap' + 1) i d = Roll.Value d.sides d) ∧
    (rollGo rng (gap' + 1) i d = Roll.Value d.sides d ↔
      ((rollGo rng gap' (i + 1) d.bump_up).is_glitch = true ∨
        ∃ v d', rollGo rng gap' (i + 1) d.bump_up = Roll.Value v d' ∧
          v < d.sides)) ∧
    d.sides ≤ (rollGo rng (gap' + 1) i d).reported := by
  rw [rollGo]
  rw [hnum, if_neg (sides_ne_one d), if_neg hd, if_pos rfl]
  simp only []
  cases hbr : rollGo rng gap' (i + 1) d.bump_up with
  | Glitch dd =>
    simp only []
    refine ⟨Or.inr (by simp), ?_, by simp [Roll.reported]⟩
    simp [Roll.is_glitch]
  | Value val dd =>
    simp only []
    by_cases hval : val < d.sides
    · rw [if_pos hval]
      refine ⟨Or.inr rfl, ?_, Nat.le_refl _⟩
      exact ⟨fun _ => Or.inr ⟨val, dd, rfl, hval⟩, fun _ => rfl⟩
    · rw [if_neg hval]
      refine ⟨Or.inl ⟨d.bump_up, 1, Nat.max d.sides val,
        rfl, Nat.le_max_left _ _⟩, ?_, Nat.le_max_left _ _⟩
      constructor
      · intro h; exact absurd h (by simp)
      · intro h
        rcases h with h | ⟨v, d', hv, hlt⟩
        · exact absurd h (by simp [Roll.is_glitch])
        · obtain ⟨rfl, -⟩ : val = v ∧ dd = d' := by
            simpa using hv
          exact absurd hlt hval
  | Shimmer ini ult sc v =>
    simp only []
    refine ⟨Or.inl ⟨ult, sc + 1, Nat.max d.sides v,
      rfl, Nat.le_max_left _ _⟩, ?_, Nat.le_max_left _ _⟩
    constructor
    · intro h; exact absurd h (by simp)
    · intro h
      rcases h with h | ⟨v', d', hv, -⟩
      · exact absurd h (by simp [Roll.is_glitch])
      · exact absurd hv (by simp)

/-- C3 (amended): rolling the maximum face of a non-maximal die always
produces either a `Shimmer` whose value is at least the triggering face, or a
plain `Value` equal to the triggering face — the latter exactly when the
cascade re-roll glitches *or* lands a plain value smaller than the triggering
face; the reported value is never less than the triggering face, and the
largest die in the set never shimmers. -/
theorem C3_max_face_cascade (rng : Nat → Nat) (i : Nat) (d : Die)
    (hd : d ≠ Die.D12) (hnum : rng i = d.sides) :
    ((∃ ult sc v, Die.roll rng i d = Roll.Shimmer d ult sc v ∧
        d.sides ≤ v) ∨
      Die.roll rng i d = Roll.Value d.sides d) ∧
    (Die.roll rng i d = Roll.Value d.sides d ↔
      ((Die.roll rng (i + 1) d.bump_up).is_glitch = true ∨
        ∃ v d', Die.roll rng (i + 1) d.bump_up = Roll.Value v d' ∧
          v < d.sides)) ∧
    d.sides ≤ (Die.roll rng i d).reported ∧
    (∀ (rng' : Nat → Nat) (j : Nat),
      (Die.roll rng' j Die.D12).is_shimmer = false) := by
  have hroll : Die.roll rng i d = rollGo rng ((d.bump_up).gap + 1) i d := by
    rw [Die.roll, bump_gap hd]
  have hcasc : Die.roll rng (i + 1) d.bump_up =
      rollGo rng (d.bump_up).gap (i + 1) d.bump_up := rfl
  obtain ⟨hA, hB, hC⟩ := rollGo_succ_spec rng i (d.bump_up).gap d hd hnum
  refine ⟨by rw [hroll]; exact hA, by rw [hroll, hcasc]; exact hB,
    by rw [hroll]; exact hC, ?_⟩
  intro rng' j
  rw [Die.roll]
  rw [rollGo.eq_def]
  simp only []
  by_cases h1 : rng' j = 1
  · rw [if_pos h1]; rfl
  · rw [if_neg h1]; simp [Roll.is_shimmer]

/-- C3 counterexample: the claim's "exactly when the cascade re-roll
glitches" is wrong — with draws `4, 3, …` a `d4` rolls its maximum face, the
cascade re-roll on the `d6` lands a plain (non-glitch) 3, and the result is
the plain `Value 4` even though no glitch occurred. -/
theorem C3_cascade_counterexample :
    (fun j => match j with | 0 => 4 | _ => 3 : Nat → Nat) 0 =
      Die.D4.sides ∧
    Die.roll (fun j => match j with | 0 => 4 | _ => 3) 0 Die.D4 =
      Roll.Value 4 Die.D4 ∧
    (Die.roll (fun j => match j with | 0 => 4 | _ => 3) 1
      Die.D4.bump_up).is_glitch = false ∧
    Die.roll (fun j => match j with | 0 => 4 | _ => 3) 1 Die.D4.bump_up =
      Roll.Value 3 Die.D6 := by
  refine ⟨rfl, ?_, ?_, ?_⟩ <;> decide

/-- Witness instantiating `C3_max_face_cascade` at the constant oracle `4`
rolling a `d4`. -/
theorem C3_max_face_cascade_witness :
    ((∃ ult sc v, Die.roll (fun _ => 4) 0 Die.D4 =
        Roll.Shimmer Die.D4 ult sc v ∧ Die.D4.sides ≤ v) ∨
      Die.roll (fun _ => 4) 0 Die.D4 = Roll.Value Die.D4.sides Die.D4) ∧
    (Die.roll (fun _ => 4) 0 Die.D4 = Roll.Value Die.D4.sides Die.D4 ↔
      ((Die.roll (fun _ => 4) (0 + 1) Die.D4.bump_up).is_glitch = true ∨
        ∃ v d', Die.roll (fun _ => 4) (0 + 1) Die.D4.bump_up =
          Roll.Value v d' ∧ v < Die.D4.sides)) ∧
    Die.D4.sides ≤ (Die.roll (fun _ => 4) 0 Die.D4).reported ∧
    (∀ (rng' : Nat → Nat) (j : Nat),
      (Die.roll rng' j Die.D12).is_shimmer = false) :=
  C3_max_face_cascade (fun _ => 4) 0 Die.D4 (by decide) rfl

/-! ### C9: every die has at most 10 sides; `D12` is a `d10` in disguise -/

theorem rollGo_reported_le (rng : Nat → Nat) (h10 : ∀ j, rng j ≤ 10) :
    ∀ (gap i : Nat) (d : Die), (rollGo rng gap i d).reported ≤ 10 := by
  intro gap
  induction gap with
  | zero =>
    intro i d
    rw [rollGo.eq_def]
    simp only []
    split
    · simp [Roll.reported]
    · split
      · simpa [Roll.reported] using h10 i
      · split
        · simpa [Roll.reported] using h10 i
        · simpa [Roll.reported] using h10 i
  | succ gap' ih =>
    intro i d
    rw [rollGo.eq_def]
    simp only []
    split
    · simp [Roll.reported]
    · split
      · simpa [Roll.reported] using h10 i
      · split
        · have hrec := ih (i + 1) d.bump_up
          cases hbr : rollGo rng gap' (i + 1) d.bump_up with
          | Glitch dd => simpa [Roll.reported] using h10 i
          | Value val dd =>
            rw [hbr] at hrec
            simp only [Roll.reported] at hrec
            simp only []
            split
            · simpa [Roll.reported] using h10 i
            · simp only [Roll.reported]
              exact Nat.max_le.mpr ⟨h10 i, hrec⟩
          | Shimmer ini ult sc v =>
            rw [hbr] at hrec
            simp only [Roll.reported] at hrec
            simp only [Roll.reported]
            exact Nat.max_le.mpr ⟨h10 i, hrec⟩
        · simpa [Roll.reported] using h10 i

/-- C9: in the shimmer variant every die reports at most 10: all side counts
lie in `{4, 6, 8, 10}`, the parser accepts `12` and produces `D12`, but
`D12.sides() = 10`, so a `D12` draws from `[1, 10]`, displays as `d10`, and
no roll whose draws respect the side bounds can report a value above 10. -/
theorem C9_d12_is_d10 :
    (∀ d : Die, d.sides = 4 ∨ d.sides = 6 ∨ d.sides = 8 ∨ d.sides = 10) ∧
    DiceRollRequest.get_die_count "12" = some (1, Die.D12) ∧
    DiceRollRequest.get_die_count "2d12" = some (2, Die.D12) ∧
    Die.D12.sides = 10 ∧
    Die.D12.display = "d10" ∧
    (∀ (rng : Nat → Nat) (i : Nat) (d : Die), (∀ j, rng j ≤ 10) →
      (Die.roll rng i d).reported ≤ 10) := by
  refine ⟨?_, by decide, by decide, rfl, rfl, ?_⟩
  · intro d; cases d <;> simp [Die.sides]
  · intro rng i d h10
    exact rollGo_reported_le rng h10 d.gap i d

/-- Witness instantiating the value bound of `C9_d12_is_d10` at the constant
oracle `10` rolling a `D12`. -/
theorem C9_d12_is_d10_witness :
    (Die.roll (fun _ => 10) 0 Die.D12).reported ≤ 10 :=
  C9_d12_is_d10.2.2.2.2.2 (fun _ => 10) 0 Die.D12 (fun _ => Nat.le_refl 10)

/-! ### Parser lemmas -/

theorem except_map_eq_error {ε α β : Type} (f : α → β) (x : Except ε α)
    (e : ε) : x.map f = Except.error e ↔ x = Except.error e := by
  cases x <;> simp [Except.map]

theorem except_map_eq_ok {ε α β : Type} (f : α → β) (x : Except ε α)
    (b : β) : x.map f = Except.ok b ↔ ∃ a, x = Except.ok a ∧ f a = b := by
  cases x <;> simp [Except.map]

theorem parseTokens_single_error (t : String)
    (hne : trimChars t.toList ≠ [])
    (hgdc : DiceRollRequest.get_die_count t = none) :
    DiceRollRequest.parseTokens [t] =
      Except.error ("Expected " ++ t ++ " to be like XdY, e.g. 3d6 or 1d8") := by
  have hne2 : ¬ trimChars t.data = [] := hne
  simp [DiceRollRequest.parseTokens, hne2, hgdc]

theorem tryFrom_eq_none {n : Int} :
    Die.tryFrom n = none ↔
      n ≠ 4 ∧ n ≠ 6 ∧ n ≠ 8 ∧ n ≠ 10 ∧ n ≠ 12 := by
  unfold Die.tryFrom
  split_ifs <;> simp_all

theorem gdc_none_of_bad_sides (s : String) (n : Int)
    (hreq : requestedSides s = some n) (hbad : Die.tryFrom n = none) :
    DiceRollRequest.get_die_count s = none := by
  unfold requestedSides at hreq
  unfold DiceRollRequest.get_die_count
  simp only []
  cases h1 : parseI32? (trimChars s.toList) with
  | some v =>
    rw [h1] at hreq
    simp only [] at hreq
    obtain rfl : v = n := by simpa using hreq
    simp [hbad]
  | none =>
    rw [h1] at hreq
    simp only [] at hreq
    cases h2 : s.toList.findIdx? (· = 'd') with
    | none =>
      rw [h2] at hreq
    | some idx =>
      rw [h2] at hreq
      simp only [] at hreq
      simp only [h1, h2]
      cases h3 : (if (trimChars (s.toList.take idx)).isEmpty = true
          then some 1
          else parseU64? (trimChars (s.toList.take idx))) with
      | none => simp
      | some c =>
        simp only []
        rw [hreq]
        simp [hbad]

theorem parse_error_iff (ts : List String) :
    (∃ e, DiceRollRequest.parseTokens ts = Except.error e) ↔
      ∃ t ∈ ts, trimChars t.toList ≠ [] ∧
        (DiceRollRequest.get_die_count t = none ∨
          ∃ c d, DiceRollRequest.get_die_count t = some (c, d) ∧
            1000000 < c) := by
  induction ts with
  | nil => simp [DiceRollRequest.parseTokens]
  | cons t rest ih =>
    by_cases hne : trimChars t.toList = []
    · have hne2 : trimChars t.data = [] := hne
      have hstep : DiceRollRequest.parseTokens (t :: rest) =
          DiceRollRequest.parseTokens rest := by
        simp [DiceRollRequest.parseTokens, hne2]
      rw [hstep, ih]
      constructor
      · rintro ⟨t', ht', h⟩
        exact ⟨t', List.mem_cons_of_mem _ ht', h⟩
      · rintro ⟨t', ht', h⟩
        rcases List.mem_cons.mp ht' with rfl | hm
        · exact absurd hne h.1
        · exact ⟨t', hm, h⟩
    · have hne2 : ¬ trimChars t.data = [] := hne
      cases hgdc : DiceRollRequest.get_die_count t with
      | none =>
        have hstep : DiceRollRequest.parseTokens (t :: rest) =
            Except.error
              ("Expected " ++ t ++ " to be like XdY, e.g. 3d6 or 1d8") := by
          simp [DiceRollRequest.parseTokens, hne2, hgdc]
        rw [hstep]
        constructor
        · intro _
          exact ⟨t, List.mem_cons_self t rest, hne, Or.inl hgdc⟩
        · intro _
          exact ⟨_, rfl⟩
      | some cd =>
        obtain ⟨c, d⟩ := cd
        by_cases hc : 1000000 < c
        · have hstep : DiceRollRequest.parseTokens (t :: rest) =
              Except.error
                "Hey buddy, I'm just a demigod, that's too many dice!" := by
            simp [DiceRollRequest.parseTokens, hne2, hgdc]
            omega
          rw [hstep]
          constructor
          · intro _
            exact ⟨t, List.mem_cons_self t rest, hne,
              Or.inr ⟨c, d, hgdc, hc⟩⟩
          · intro _
            exact ⟨_, rfl⟩
        · have hstep : DiceRollRequest.parseTokens (t :: rest) =
              (DiceRollRequest.parseTokens rest).map
                (fun ds => List.replicate c d ++ ds) := by
            simp [DiceRollRequest.parseTokens, hne2, hgdc]
            omega
          rw [hstep]
          constructor
          · rintro ⟨e, he⟩
            rw [except_map_eq_error] at he
            obtain ⟨t', ht', h⟩ := ih.mp ⟨e, he⟩
            exact ⟨t', List.mem_cons_of_mem _ ht', h⟩
          · rintro ⟨t', ht', hh⟩
            rcases List.mem_cons.mp ht' with rfl | hm
            · rcases hh.2 with h | ⟨c', d', hcd, hc'⟩
              · rw [hgdc] at h
                exact absurd h (by simp)
              · rw [hgdc] at hcd
                obtain ⟨rfl, -⟩ : c = c' ∧ d = d' := by simpa using hcd
                exact absurd hc' hc
            · obtain ⟨e, he⟩ := ih.mpr ⟨t', hm, hh⟩
              exact ⟨e, (except_map_eq_error _ _ _).mpr he⟩

theorem parseTokens_ok_flatten (ts : List String) (l : List Die)
    (h : DiceRollRequest.parseTokens ts = Except.ok l) :
    l = (ts.map (fun t =>
      if trimChars t.toList = [] then []
      else match DiceRollRequest.get_die_count t with
        | some (c, d) => List.replicate c d
        | none => [])).flatten := by
  induction ts generalizing l with
  | nil =>
    obtain rfl : l = [] := by
      simpa [DiceRollRequest.parseTokens] using h.symm
    rfl
  | cons t rest ih =>
    by_cases hne : trimChars t.toList = []
    · have hne2 : trimChars t.data = [] := hne
      have hstep : DiceRollRequest.parseTokens (t :: rest) =
          DiceRollRequest.parseTokens rest := by
        simp [DiceRollRequest.parseTokens, hne2]
      rw [hstep] at h
      rw [List.map_cons, if_pos hne, List.flatten_cons, List.nil_append]
      exact ih l h
    · have hne2 : ¬ trimChars t.data = [] := hne
      cases hgdc : DiceRollRequest.get_die_count t with
      | none =>
        have : DiceRollRequest.parseTokens (t :: rest) = Except.error
            ("Expected " ++ t ++ " to be like XdY, e.g. 3d6 or 1d8") := by
          simp [DiceRollRequest.parseTokens, hne2, hgdc]
        rw [this] at h
        exact absurd h (by simp)
      | some cd =>
        obtain ⟨c, d⟩ := cd
        by_cases hc : 1000000 < c
        · have : DiceRollRequest.parseTokens (t :: rest) = Except.error
              "Hey buddy, I'm just a demigod, that's too many dice!" := by
            simp [DiceRollRequest.parseTokens, hne2, hgdc]
            omega
          rw [this] at h
          exact absurd h (by simp)
        · have hstep : DiceRollRequest.parseTokens (t :: rest) =
              (DiceRollRequest.parseTokens rest).map
                (fun ds => List.replicate c d ++ ds) := by
            simp [DiceRollRequest.parseTokens, hne2, hgdc]
            omega
          rw [hstep] at h
          obtain ⟨l', hl', rfl⟩ := (except_map_eq_ok _ _ _).mp h
          rw [List.map_cons, if_neg hne, hgdc, List.flatten_cons]
          exact congrArg (List.replicate c d ++ ·) (ih l' hl')

/-! ### C5: malformed or disallowed tokens -/

/-- C5: a token whose requested side count is not one of `4/6/8/10/12` fails,
tokens matching neither shape (`"d"`, `"xd6"`) fail, the single-token error
message names the offending token, and a whole expression fails exactly when
some token fails (either malformed or requesting too many dice). -/
theorem C5_malformed_tokens :
    (∀ (s : String) (n : Int), requestedSides s = some n →
      n ≠ 4 → n ≠ 6 → n ≠ 8 → n ≠ 10 → n ≠ 12 →
      DiceRollRequest.get_die_count s = none) ∧
    DiceRollRequest.get_die_count "d" = none ∧
    DiceRollRequest.get_die_count "xd6" = none ∧
    DiceRollRequest.get_die_count "d13" = none ∧
    (∀ t : String, trimChars t.toList ≠ [] →
      DiceRollRequest.get_die_count t = none →
      DiceRollRequest.parseTokens [t] =
        Except.error
          ("Expected " ++ t ++ " to be like XdY, e.g. 3d6 or 1d8")) ∧
    DiceRollRequest.parse "d13" =
      Except.error "Expected d13 to be like XdY, e.g. 3d6 or 1d8" ∧
    (∀ s : String, (∃ e, DiceRollRequest.parse s = Except.error e) ↔
      ∃ t ∈ split_whitespace s, trimChars t.toList ≠ [] ∧
        (DiceRollRequest.get_die_count t = none ∨
          ∃ c d, DiceRollRequest.get_die_count t = some (c, d) ∧
            1000000 < c)) := by
  refine ⟨?_, by decide, by decide, by decide, parseTokens_single_error,
    by decide, ?_⟩
  · intro s n hreq h4 h6 h8 h10 h12
    exact gdc_none_of_bad_sides s n hreq
      (tryFrom_eq_none.mpr ⟨h4, h6, h8, h10, h12⟩)
  · intro s
    exact parse_error_iff (split_whitespace s)

/-- Witness instantiating `C5_malformed_tokens` at the token `d20`. -/
theorem C5_malformed_tokens_witness :
    DiceRollRequest.get_die_count "d20" = none :=
  C5_malformed_tokens.1 "d20" 20 (by decide) (by decide) (by decide)
    (by decide) (by decide) (by decide)

/-! ### C7: the million-dice guard -/

/-- C7 (amended): for a well-formed token whose count parses as a `u64`, the
single-token parse fails with the "too many dice" message exactly when the
count exceeds 1,000,000, and a token requesting exactly 1,000,000 dice
succeeds.  (Counts too large for `u64` fail earlier, inside `get_die_count`,
and produce the malformed-token message instead.) -/
theorem C7_too_many_dice (t : String) (c : Nat) (d : Die)
    (hne : trimChars t.toList ≠ [])
    (hgdc : DiceRollRequest.get_die_count t = some (c, d)) :
    (DiceRollRequest.parseTokens [t] =
        Except.error "Hey buddy, I'm just a demigod, that's too many dice!" ↔
      1000000 < c) ∧
    DiceRollRequest.parse "1000000d4" =
      Except.ok (List.replicate 1000000 Die.D4) := by
  constructor
  · have hne2 : ¬ trimChars t.data = [] := hne
    by_cases hc : 1000000 < c
    · have hstep : DiceRollRequest.parseTokens [t] = Except.error
          "Hey buddy, I'm just a demigod, that's too many dice!" := by
        simp [DiceRollRequest.parseTokens, hne2, hgdc]
        omega
      simp [hstep, hc]
    · have hstep : DiceRollRequest.parseTokens [t] =
          (DiceRollRequest.parseTokens []).map
            (fun ds => List.replicate c d ++ ds) := by
        simp [DiceRollRequest.parseTokens, hne2, hgdc]
        omega
      rw [hstep]
      constructor
      · intro h
        exact absurd h (by simp [DiceRollRequest.parseTokens, Except.map])
      · intro h
        exact absurd h hc
  · have hs : split_whitespace "1000000d4" = ["1000000d4"] := by decide
    have hg : DiceRollRequest.get_die_count "1000000d4" =
        some (1000000, Die.D4) := by decide
    rw [DiceRollRequest.parse, hs]
    rw [DiceRollRequest.parseTokens]
    rw [if_neg (by decide)]
    rw [hg]
    simp only []
    rw [if_neg (by decide)]
    rw [DiceRollRequest.parseTokens]
    simp only [Except.map]
    rw [List.append_nil]

/-- Witness instantiating `C7_too_many_dice` at the token `1000001d4`. -/
theorem C7_too_many_dice_witness :
    DiceRollRequest.parseTokens ["1000001d4"] =
      Except.error "Hey buddy, I'm just a demigod, that's too many dice!" :=
  (C7_too_many_dice "1000001d4" 1000001 Die.D4 (by decide)
    (by decide)).1.mpr (by decide)

/-- C7 counterexample: the token `18446744073709551616d4` requests
`2^64` dice — far more than 1,000,000 — yet parsing fails with the
malformed-token message, not the "too many dice" message, because the count
overflows the `u64` parse inside `get_die_count`. -/
theorem C7_overflow_counterexample :
    1000000 < digitsToNat ("18446744073709551616" : String).toList ∧
    digitsToNat ("18446744073709551616" : String).toList =
      18446744073709551616 ∧
    DiceRollRequest.parse "18446744073709551616d4" =
      Except.error
        "Expected 18446744073709551616d4 to be like XdY, e.g. 3d6 or 1d8" ∧
    DiceRollRequest.parse "18446744073709551616d4" ≠
      Except.error "Hey buddy, I'm just a demigod, that's too many dice!" := by
  refine ⟨by decide, by decide, by decide, by decide⟩

/-! ### C8: token shapes -/

/-- C8: `d4`, `1d4` and `4` parse to the same single-die request, `3d6`
yields three `d6`, the empty and all-whitespace expressions parse to the
empty list, and every successful parse is, in token order, count-many copies
of each token's die. -/
theorem C8_parse_shapes :
    DiceRollRequest.parse "d4" = Except.ok [Die.D4] ∧
    DiceRollRequest.parse "1d4" = Except.ok [Die.D4] ∧
    DiceRollRequest.parse "4" = Except.ok [Die.D4] ∧
    DiceRollRequest.parse "3d6" = Except.ok [Die.D6, Die.D6, Die.D6] ∧
    DiceRollRequest.parse "" = Except.ok [] ∧
    DiceRollRequest.parse "   " = Except.ok [] ∧
    (∀ (s : String) (l : List Die),
      DiceRollRequest.parse s = Except.ok l →
      l = ((split_whitespace s).map (fun t =>
        if trimChars t.toList = [] then []
        else match DiceRollRequest.get_die_count t with
          | some (c, d) => List.replicate c d
          | none => [])).flatten) := by
  refine ⟨by decide, by decide, by decide, by decide, by decide, by decide,
    ?_⟩
  intro s l h
  exact parseTokens_ok_flatten (split_whitespace s) l h

/-- Witness instantiating the general clause of `C8_parse_shapes` at the
expression `3d6`. -/
theorem C8_parse_shapes_witness :
    [Die.D6, Die.D6, Die.D6] = ((split_whitespace "3d6").map (fun t =>
      if trimChars t.toList = [] then []
      else match DiceRollRequest.get_die_count t with
        | some (c, d) => List.replicate c d
        | none => [])).flatten :=
  C8_parse_shapes.2.2.2.2.2.2 "3d6" [Die.D6, Die.D6, Die.D6] (by decide)

/-! ### C10: the empty request is a Botch -/

/-- C10: the empty (or all-whitespace) expression parses to zero dice,
`is_botch` is vacuously true on the empty roll list, and the summary rendered
for it is exactly the Botch marker. -/
theorem C10_empty_request_botch :
    DiceRollRequest.parse "" = Except.ok [] ∧
    DiceRollRequest.parse "   " = Except.ok [] ∧
    is_botch [] = true ∧
    short_summary [] = "**BOTCH!**" := by
  refine ⟨by decide, by decide, rfl, rfl⟩

/-- C4 counterexample: `[Value 0 d4]` contains a non-glitch roll, yet
`get_highest_total` returns `Botch` while `get_highest_effect` does not, and
`short_summary` actually produces the "unreachable" internal-error
placeholder. -/
theorem C4_zero_value_counterexample :
    (∃ r ∈ [Roll.Value 0 Die.D4], r.is_glitch = false) ∧
    get_highest_total [Roll.Value 0 Die.D4] = FinalResult.Botch ∧
    get_highest_effect [Roll.Value 0 Die.D4] ≠ FinalResult.Botch ∧
    short_summary [Roll.Value 0 Die.D4] =
      "Internal error, disagreement on botch??" := by
  refine ⟨⟨Roll.Value 0 Die.D4, by decide, rfl⟩, by decide, by decide,
    by decide⟩

/-- Witness instantiating `C4_no_botch_disagreement` at a single plain roll
of 2 on a `d4`. -/
theorem C4_no_botch_disagreement_witness :
    get_highest_effect [Roll.Value 2 Die.D4] ≠ FinalResult.Botch ∧
    get_highest_total [Roll.Value 2 Die.D4] ≠ FinalResult.Botch ∧
    short_summary [Roll.Value 2 Die.D4] ≠
      "Internal error, disagreement on botch??" :=
  C4_no_botch_disagreement [Roll.Value 2 Die.D4] (Roll.Value 2 Die.D4) 2
    (by decide) (Or.inl ⟨Die.D4, rfl⟩) (by decide)
